import Mathlib

/-!
Verification of the civic-exchange-protocol canonicalization and SNFEI
(Sub-National Federated Entity Identifier) core, shallowly embedded in Lean.

Rust strings are modelled as `List Char` / `String` (Lean strings are lists of
Unicode scalar values, matching Rust `char`); Rust `str::len` (a UTF-8 byte
count) is modelled by `utf8Len`.  SHA-256 is implemented over byte lists with
arithmetic carried out in `Nat` modulo `2^32`.  Floating-point confidence
scores are embedded as exact rationals (`ℚ`); every arithmetic step of the
scoring algorithm stays on small decimal constants, so the rational embedding
tracks the intent of the `f64` code.

The normalizer crate (`cep-snfei/src/normalizer.rs`) and the canonical-map /
timestamp modules of `cep-core` are not part of the sources under
verification; definitions derived from them are marked `Modelled from the
spec:` in their doc comments and follow the specification text.
-/

/-! ## UTF-8 byte model for Rust strings -/

/-- UTF-8 encoding of a single Unicode scalar value, as a list of bytes. -/
def utf8EncodeChar (c : Char) : List Nat :=
  let n := c.toNat
  if n < 128 then [n]
  else if n < 2048 then
    [192 ||| (n >>> 6), 128 ||| (n &&& 63)]
  else if n < 65536 then
    [224 ||| (n >>> 12), 128 ||| ((n >>> 6) &&& 63), 128 ||| (n &&& 63)]
  else
    [240 ||| (n >>> 18), 128 ||| ((n >>> 12) &&& 63),
     128 ||| ((n >>> 6) &&& 63), 128 ||| (n &&& 63)]

/-- UTF-8 encoding of a character list. -/
def utf8Encode (ls : List Char) : List Nat :=
  (ls.map utf8EncodeChar).flatten

/-- Rust `str::len`: the length in UTF-8 bytes. -/
def utf8Len (ls : List Char) : Nat :=
  (utf8Encode ls).length

/-! ## Character classes (Rust `char` predicates) -/

/-- Rust `char::is_whitespace` (the Unicode White_Space property). -/
def isRustWhitespace (c : Char) : Bool :=
  let n := c.toNat
  n == 9 || n == 10 || n == 11 || n == 12 || n == 13 || n == 32 ||
  n == 133 || n == 160 || n == 5760 || (8192 ≤ n && n ≤ 8202) ||
  n == 8232 || n == 8233 || n == 8239 || n == 8287 || n == 12288

/-- Rust `char::is_ascii_digit`. -/
def isAsciiDigit (c : Char) : Bool :=
  48 ≤ c.toNat && c.toNat ≤ 57

/-- Rust `char::is_ascii_uppercase`. -/
def isAsciiUppercase (c : Char) : Bool :=
  65 ≤ c.toNat && c.toNat ≤ 90

/-- Rust `char::is_ascii_lowercase`. -/
def isAsciiLowercase (c : Char) : Bool :=
  97 ≤ c.toNat && c.toNat ≤ 122

/-- Rust `char::is_ascii_alphanumeric`. -/
def isAsciiAlphanumeric (c : Char) : Bool :=
  isAsciiDigit c || isAsciiUppercase c || isAsciiLowercase c

/-- Rust `char::is_ascii_hexdigit`. -/
def isAsciiHexdigit (c : Char) : Bool :=
  isAsciiDigit c || (97 ≤ c.toNat && c.toNat ≤ 102) ||
    (65 ≤ c.toNat && c.toNat ≤ 70)

/-- ASCII lower-casing of one character (the case fold used on ASCII text). -/
def asciiLowerChar (c : Char) : Char :=
  if isAsciiUppercase c then Char.ofNat (c.toNat + 32) else c

/-- ASCII upper-casing of one character. -/
def asciiUpperChar (c : Char) : Char :=
  if isAsciiLowercase c then Char.ofNat (c.toNat - 32) else c

/-- Lower-case an entire string (ASCII case fold). -/
def asciiLower (s : String) : String :=
  ⟨s.toList.map asciiLowerChar⟩

/-- Upper-case an entire string (ASCII case fold). -/
def asciiUpper (s : String) : String :=
  ⟨s.toList.map asciiUpperChar⟩

/-! ## Whitespace splitting (Rust `str::split_whitespace`) -/

/-- Accumulator-based splitter: `acc` holds the current word reversed. -/
def splitWsAux : List Char → List Char → List (List Char)
  | [], acc => if acc.isEmpty then [] else [acc.reverse]
  | c :: rest, acc =>
    if isRustWhitespace c then
      if acc.isEmpty then splitWsAux rest []
      else acc.reverse :: splitWsAux rest []
    else splitWsAux rest (c :: acc)

/-- Rust `str::split_whitespace` collected to a list of words: splits on
Unicode whitespace and never yields an empty word. -/
def splitWs (ls : List Char) : List (List Char) :=
  splitWsAux ls []

/-- Join a list of words with single spaces. -/
def joinSpace : List (List Char) → List Char
  | [] => []
  | [w] => w
  | w :: ws => w ++ ' ' :: joinSpace ws

/-! ## Normalizing Functor (spec §4.2) -/

/-- Modelled from the spec: text normalization used by the Normalizing
Functor of `cep-snfei/src/normalizer.rs` (not among the sources): trim
leading/trailing whitespace, collapse internal whitespace runs to a single
space, fold letter case (lower-case is the direction fixed here).
Implemented as case folding followed by split-on-whitespace re-joined with
single spaces, which realises trim + collapse exactly. -/
def normalizeText (s : String) : String :=
  ⟨joinSpace (splitWs ((asciiLower s).toList))⟩

/-- Canonical input tuple of the SNFEI pipeline
(`cep-snfei/src/normalizer.rs`): normalized legal name, normalized address
(possibly empty), upper-case country code, registration date (possibly
empty). -/
structure CanonicalInput where
  legal_name_normalized : String
  address_normalized : String
  country_code : String
  registration_date : String
  deriving Repr, DecidableEq

/-- Modelled from the spec: `build_canonical_input` of
`cep-snfei/src/normalizer.rs` (not among the sources).  Legal name and
address go through the whitespace/case normalization; the country code is
upper-cased; absent optional fields become empty segments. -/
def build_canonical_input (legal_name country_code : String)
    (address registration_date : Option String) : CanonicalInput :=
  { legal_name_normalized := normalizeText legal_name
    address_normalized := (address.map normalizeText).getD ""
    country_code := asciiUpper country_code
    registration_date := registration_date.getD "" }

/-- Modelled from the spec: `CanonicalInput::to_hash_string` of
`cep-snfei/src/normalizer.rs` (not among the sources): the four segments
joined by pipes in the fixed order
legal_name_normalized, address_normalized, country_code,
registration_date. -/
def CanonicalInput.to_hash_string (ci : CanonicalInput) : String :=
  ci.legal_name_normalized ++ "|" ++ ci.address_normalized ++ "|" ++
    ci.country_code ++ "|" ++ ci.registration_date

/-- Number of pipe characters in a string. -/
def countPipes (s : String) : Nat :=
  s.toList.countP (fun c => c == '|')

/-! ## SHA-256 (the `sha2` crate's function, modelled over `Nat` mod `2^32`) -/

/-- Truncate to a 32-bit word. -/
def mod32 (x : Nat) : Nat := x % 4294967296

/-- 32-bit right rotation. -/
def rotr32 (n x : Nat) : Nat :=
  mod32 ((x >>> n) ||| (x <<< (32 - n)))

/-- The 64 SHA-256 round constants. -/
def sha256K : List Nat :=
  [1116352408, 1899447441, 3049323471, 3921009573, 961987163, 1508970993,
   2453635748, 2870763221, 3624381080, 310598401, 607225278, 1426881987,
   1925078388, 2162078206, 2614888103, 3248222580, 3835390401, 4022224774,
   264347078, 604807628, 770255983, 1249150122, 1555081692, 1996064986,
   2554220882, 2821834349, 2952996808, 3210313671, 3336571891, 3584528711,
   113926993, 338241895, 666307205, 773529912, 1294757372, 1396182291,
   1695183700, 1986661051, 2177026350, 2456956037, 2730485921, 2820302411,
   3259730800, 3345764771, 3516065817, 3600352804, 4094571909, 275423344,
   430227734, 506948616, 659060556, 883997877, 958139571, 1322822218,
   1537002063, 1747873779, 1955562222, 2024104815, 2227730452, 2361852424,
   2428436474, 2756734187, 3204031479, 3329325298]

/-- The SHA-256 initial hash state. -/
def sha256H0 : List Nat :=
  [1779033703, 3144134277, 1013904242, 2773480762,
   1359893119, 2600822924, 528734635, 1541459225]

/-- Big-endian byte expansion of a natural number to `count` bytes. -/
def beBytes (n count : Nat) : List Nat :=
  (List.range count).map (fun i => (n >>> (8 * (count - 1 - i))) % 256)

/-- SHA-256 message padding: append `0x80`, zeros, then the 64-bit
big-endian bit length, reaching a multiple of 64 bytes. -/
def sha256Pad (msg : List Nat) : List Nat :=
  let len := msg.length
  let padZeros := (119 - (len % 64)) % 64
  msg ++ 128 :: List.replicate padZeros 0 ++ beBytes (len * 8) 8

/-- Split a byte list into 64-byte blocks (the length is assumed to be a
multiple of 64, as produced by `sha256Pad`). -/
def chunks64 (l : List Nat) : List (List Nat) :=
  (List.range (l.length / 64)).map (fun i => ((l.drop (64 * i)).take 64))

/-- The sixteen big-endian 32-bit words of one 64-byte block. -/
def blockWords (block : List Nat) : List Nat :=
  (List.range 16).map (fun i =>
    block.getD (4 * i) 0 * 16777216 + block.getD (4 * i + 1) 0 * 65536 +
      block.getD (4 * i + 2) 0 * 256 + block.getD (4 * i + 3) 0)

/-- One extension step of the SHA-256 message schedule. -/
def scheduleStep (w : List Nat) : List Nat :=
  let t := w.length
  let w15 := w.getD (t - 15) 0
  let w2 := w.getD (t - 2) 0
  let s0 := rotr32 7 w15 ^^^ rotr32 18 w15 ^^^ (w15 >>> 3)
  let s1 := rotr32 17 w2 ^^^ rotr32 19 w2 ^^^ (w2 >>> 10)
  w ++ [mod32 (w.getD (t - 16) 0 + s0 + w.getD (t - 7) 0 + s1)]

/-- The full 64-word message schedule of one block. -/
def sha256Schedule (block : List Nat) : List Nat :=
  Nat.rec (blockWords block) (fun _ w => scheduleStep w) 48

/-- One SHA-256 compression round on the state `[a,b,c,d,e,f,g,h]`. -/
def sha256Round (st : List Nat) (kw : Nat × Nat) : List Nat :=
  let a := st.getD 0 0
  let b := st.getD 1 0
  let c := st.getD 2 0
  let d := st.getD 3 0
  let e := st.getD 4 0
  let f := st.getD 5 0
  let g := st.getD 6 0
  let h := st.getD 7 0
  let s1 := rotr32 6 e ^^^ rotr32 11 e ^^^ rotr32 25 e
  let ch := (e &&& f) ^^^ ((e ^^^ 4294967295) &&& g)
  let temp1 := mod32 (h + s1 + ch + kw.1 + kw.2)
  let s0 := rotr32 2 a ^^^ rotr32 13 a ^^^ rotr32 22 a
  let maj := (a &&& b) ^^^ (a &&& c) ^^^ (b &&& c)
  let temp2 := mod32 (s0 + maj)
  [mod32 (temp1 + temp2), a, b, c, mod32 (d + temp1), e, f, g]

/-- Process one 64-byte block: run 64 rounds and add the result into the
running state word-wise mod `2^32`. -/
def sha256Block (st : List Nat) (block : List Nat) : List Nat :=
  let final := (sha256K.zip (sha256Schedule block)).foldl sha256Round st
  (st.zip final).map (fun p => mod32 (p.1 + p.2))

/-- The eight 32-bit state words of the SHA-256 digest of a byte list. -/
def sha256Words (msg : List Nat) : List Nat :=
  (chunks64 (sha256Pad msg)).foldl sha256Block sha256H0

/-- Lower-case hexadecimal digit. -/
def hexDigit (n : Nat) : Char :=
  if n < 10 then Char.ofNat (48 + n) else Char.ofNat (87 + n)

/-- Eight lower-case hex digits of a 32-bit word, most significant first. -/
def wordHex (w : Nat) : List Char :=
  (List.range 8).map (fun i => hexDigit ((w >>> (4 * (7 - i))) % 16))

/-- SHA-256 digest of a byte list as a 64-character lower-case hex string. -/
def sha256Hex (msg : List Nat) : String :=
  ⟨((sha256Words msg).map wordHex).flatten⟩

/-- SHA-256 of a string's UTF-8 bytes, hex-encoded — the composition
`format!("\x7b:x\x7d", Sha256::digest(s.as_bytes()))` used throughout the
sources. -/
def sha256HexOfString (s : String) : String :=
  sha256Hex (utf8Encode s.toList)

/-! ## SNFEI generation (`cep-snfei/src/generator.rs`) -/

/-- `Snfei::from_hash` of the snfei crate: accepts a 64-character string of
ASCII hex digits and stores it lower-cased. -/
def snfeiFromHash (hash : String) : Option String :=
  if utf8Len hash.toList = 64 && hash.toList.all isAsciiHexdigit then
    some (asciiLower hash)
  else
    none

/-- `compute_snfei`: SHA-256 of the canonical input's hash string.  The
resulting `Snfei` is represented by its 64-hex-character value. -/
def compute_snfei (canonical : CanonicalInput) : String :=
  sha256HexOfString canonical.to_hash_string

/-- `generate_snfei`: normalize the raw attributes and hash them, returning
the identifier together with the canonical input. -/
def generate_snfei (legal_name country_code : String)
    (address registration_date : Option String) : String × CanonicalInput :=
  let canonical := build_canonical_input legal_name country_code address registration_date
  let snfei := compute_snfei canonical
  (snfei, canonical)

/-- Result record of `generate_snfei_with_confidence`; the `f64` confidence
score is embedded as an exact rational. -/
structure SnfeiResult where
  snfei : String
  canonical : CanonicalInput
  confidence_score : ℚ
  tier : Nat
  fields_used : List String
  deriving Repr, DecidableEq

/-- Tests whether an optional string is present with the given UTF-8 byte
length — the pattern `if let Some(v) = o { if v.len() == n { ... } }` of the
tier checks. -/
def optLenIs (o : Option String) (n : Nat) : Bool :=
  match o with
  | some s => utf8Len s.toList == n
  | none => false

/-- `generate_snfei_with_confidence`: tier classification and confidence
scoring.  Tier 1 when the LEI is present with byte length 20, else Tier 2
when the SAM UEI is present with byte length 12, else Tier 3 with the
additive capped score. -/
def generate_snfei_with_confidence (legal_name country_code : String)
    (address registration_date lei sam_uei : Option String) : SnfeiResult :=
  let fields_used := ["legal_name", "country_code"]
  if optLenIs lei 20 then
    let canonical := build_canonical_input legal_name country_code address registration_date
    let snfei := compute_snfei canonical
    { snfei := snfei, canonical := canonical, confidence_score := 1,
      tier := 1, fields_used := "lei" :: fields_used }
  else if optLenIs sam_uei 12 then
    let canonical := build_canonical_input legal_name country_code address registration_date
    let snfei := compute_snfei canonical
    { snfei := snfei, canonical := canonical, confidence_score := 19/20,
      tier := 2, fields_used := "sam_uei" :: fields_used }
  else
    let canonical := build_canonical_input legal_name country_code address registration_date
    let snfei := compute_snfei canonical
    let fields_used := fields_used ++ (if address.isSome then ["address"] else [])
    let confidence : ℚ := 1/2 + (if address.isSome then 1/5 else 0)
    let fields_used := fields_used ++
      (if registration_date.isSome then ["registration_date"] else [])
    let confidence := confidence + (if registration_date.isSome then 1/5 else 0)
    let word_count := (splitWs canonical.legal_name_normalized.toList).length
    let confidence := confidence + (if word_count > 3 then 1/10 else 0)
    let confidence := min confidence (9/10)
    { snfei := snfei, canonical := canonical, confidence_score := confidence,
      tier := 3, fields_used := fields_used }

/-! ## Entity identifier types (`cep-entity/src/identifiers.rs`) -/

/-- `SamUei::new`: accepts exactly 12 bytes, all ASCII upper-case letters or
digits. -/
def SamUei.new (value : String) : Option String :=
  if utf8Len value.toList = 12 &&
      value.toList.all (fun c => isAsciiUppercase c || isAsciiDigit c) then
    some value
  else
    none

/-- `Lei::new`: accepts exactly 20 bytes, all ASCII alphanumeric, and stores
the value upper-cased. -/
def Lei.new (value : String) : Option String :=
  if utf8Len value.toList = 20 && value.toList.all isAsciiAlphanumeric then
    some (asciiUpper value)
  else
    none

/-- `Snfei::from_hash` of the entity crate: 64 ASCII hex digits, stored
lower-cased. -/
def Snfei.from_hash (hash : String) : Option String :=
  if utf8Len hash.toList = 64 && hash.toList.all isAsciiHexdigit then
    some (asciiLower hash)
  else
    none

/-- Pre-image hashed by the entity crate's `Snfei::generate`:
`format!("\x7b\x7d|\x7b\x7d", normalized_name, jurisdiction_iso)`. -/
def Snfei.generate_preimage (normalized_name jurisdiction_iso : String) : String :=
  normalized_name ++ "|" ++ jurisdiction_iso

/-- `Snfei::generate` of the entity crate: SHA-256 over the two-segment
pre-image. -/
def Snfei.generate (normalized_name jurisdiction_iso : String) : String :=
  sha256HexOfString (Snfei.generate_preimage normalized_name jurisdiction_iso)

/-- Rust `str::split_at` at a byte index, `none` when the index is not a
UTF-8 character boundary (the case in which Rust panics). -/
def splitAtByte : List Char → Nat → Option (List Char × List Char)
  | ls, 0 => some ([], ls)
  | [], _ + 1 => none
  | c :: rest, n + 1 =>
    if (utf8EncodeChar c).length ≤ n + 1 then
      (splitAtByte rest (n + 1 - (utf8EncodeChar c).length)).map
        (fun p => (c :: p.1, p.2))
    else
      none

/-- `CanadianBn::new`: after a 15-byte length check the value is split at
byte indices 9 and 11 and the three parts are checked against the pattern
nine digits, two upper-case letters, four digits.  `Except.error ()` marks
the panic Rust raises when a split index is not a character boundary. -/
def CanadianBn.new (value : String) : Except Unit (Option String) :=
  if utf8Len value.toList = 15 then
    match splitAtByte value.toList 9 with
    | none => Except.error ()
    | some (digits1, rest) =>
      match splitAtByte rest 2 with
      | none => Except.error ()
      | some (letters, digits2) =>
        if digits1.all isAsciiDigit && letters.all isAsciiUppercase &&
            digits2.all isAsciiDigit then
          Except.ok (some value)
        else
          Except.ok none
  else
    Except.ok none

/-! ## Canonical field maps (`BTreeMap<String, String>` as a sorted
association list) -/

/-- Lexicographic strict order on character lists; on UTF-8 data this
coincides with Rust's byte-wise `Ord` for `String`, since UTF-8 encoding
preserves scalar-value order. -/
def lexLtChars : List Char → List Char → Bool
  | [], [] => false
  | [], _ :: _ => true
  | _ :: _, [] => false
  | a :: as, b :: bs =>
    if a.toNat < b.toNat then true
    else if b.toNat < a.toNat then false
    else lexLtChars as bs

/-- Strict key order of the canonical map (Rust `String` `Ord`). -/
def keyLt (a b : String) : Bool :=
  lexLtChars a.data b.data

/-- `BTreeMap::insert`: place the pair at its key-ordered position,
replacing an existing binding of the same key. -/
def mapInsert (k v : String) : List (String × String) → List (String × String)
  | [] => [(k, v)]
  | (k0, v0) :: rest =>
    if keyLt k k0 then (k, v) :: (k0, v0) :: rest
    else if k = k0 then (k, v) :: rest
    else (k0, v0) :: mapInsert k v rest

/-- `BTreeMap::get`: first binding of the key. -/
def mapLookup (k : String) : List (String × String) → Option String
  | [] => none
  | (k0, v0) :: rest => if k = k0 then some v0 else mapLookup k rest

/-- Key sequence of a canonical field map. -/
def mapKeys (m : List (String × String)) : List String :=
  m.map Prod.fst

/-- Modelled from the spec: `insert_required` of `cep-core/src/canonical.rs`
(not among the sources) — insert the field unconditionally. -/
def insert_required (m : List (String × String)) (key value : String) :
    List (String × String) :=
  mapInsert key value m

/-- Modelled from the spec: `insert_if_present` of
`cep-core/src/canonical.rs` (not among the sources) — insert the field only
when the optional value is present; absent fields are omitted entirely. -/
def insert_if_present (m : List (String × String)) (key : String)
    (value : Option String) : List (String × String) :=
  match value with
  | some v => mapInsert key v m
  | none => m

/-! ## Attestation (`cep-core/src/attestation.rs`) -/

/-- Purpose of a cryptographic proof. -/
inductive ProofPurpose where
  | assertionMethod
  | authentication
  | capabilityDelegation
  deriving Repr, DecidableEq

/-- `ProofPurpose::as_str`. -/
def ProofPurpose.as_str : ProofPurpose → String
  | .assertionMethod => "assertionMethod"
  | .authentication => "authentication"
  | .capabilityDelegation => "capabilityDelegation"

/-- Attestation record.  The `CanonicalTimestamp` field is modelled from the
spec as its already-formatted canonical string (`cep-core/src/timestamp.rs`
is not among the sources and the timestamp is treated as pre-formatted
input). -/
structure Attestation where
  attestor_id : String
  attestation_timestamp : String
  proof_type : String
  proof_value : String
  verification_method_uri : String
  proof_purpose : ProofPurpose
  anchor_uri : Option String
  deriving Repr, DecidableEq

/-- `Attestation::new`: required fields, default proof purpose
`AssertionMethod`, no anchor URI. -/
def Attestation.new (attestor_id attestation_timestamp proof_type proof_value
    verification_method_uri : String) : Attestation :=
  { attestor_id := attestor_id
    attestation_timestamp := attestation_timestamp
    proof_type := proof_type
    proof_value := proof_value
    verification_method_uri := verification_method_uri
    proof_purpose := .assertionMethod
    anchor_uri := none }

/-- `Attestation::with_purpose`. -/
def Attestation.with_purpose (a : Attestation) (purpose : ProofPurpose) :
    Attestation :=
  { a with proof_purpose := purpose }

/-- `Attestation::with_anchor`. -/
def Attestation.with_anchor (a : Attestation) (uri : String) : Attestation :=
  { a with anchor_uri := some uri }

/-- `Attestation::canonical_fields`: the optional anchor URI and the six
required fields inserted into the ordered map. -/
def Attestation.canonical_fields (a : Attestation) : List (String × String) :=
  let map : List (String × String) := []
  let map := insert_if_present map "anchorUri" a.anchor_uri
  let map := insert_required map "attestationTimestamp" a.attestation_timestamp
  let map := insert_required map "attestorId" a.attestor_id
  let map := insert_required map "proofPurpose" a.proof_purpose.as_str
  let map := insert_required map "proofType" a.proof_type
  let map := insert_required map "proofValue" a.proof_value
  let map := insert_required map "verificationMethodUri" a.verification_method_uri
  map

/-! ## EntityIdentifiers (`cep-entity/src/identifiers.rs`) -/

/-- An additional identifier scheme (scheme URI and value). -/
structure AdditionalScheme where
  scheme_uri : String
  value : String
  deriving Repr, DecidableEq

/-- Collection of all known identifiers for an entity.  The typed slots
hold the inner string of the validated newtype. -/
structure EntityIdentifiers where
  sam_uei : Option String
  lei : Option String
  snfei : Option String
  canadian_bn : Option String
  additional_schemes : Option (List AdditionalScheme)
  deriving Repr, DecidableEq

/-- `EntityIdentifiers::has_any`. -/
def EntityIdentifiers.has_any (e : EntityIdentifiers) : Bool :=
  e.sam_uei.isSome || e.lei.isSome || e.snfei.isSome || e.canadian_bn.isSome ||
    ((e.additional_schemes.map (fun v => !v.isEmpty)).getD false)

/-- `EntityIdentifiers::primary_identifier`: fixed precedence
LEI, then SAM UEI, then SNFEI, then Canadian BN. -/
def EntityIdentifiers.primary_identifier (e : EntityIdentifiers) :
    Option String :=
  match e.lei with
  | some lei => some ("cep-entity:lei:" ++ lei)
  | none =>
    match e.sam_uei with
    | some uei => some ("cep-entity:sam-uei:" ++ uei)
    | none =>
      match e.snfei with
      | some snfei => some ("cep-entity:snfei:" ++ snfei)
      | none =>
        match e.canadian_bn with
        | some bn => some ("cep-entity:canadian-bn:" ++ bn)
        | none => none

/-- serde_json escaping of one character inside a JSON string literal. -/
def jsonEscapeChar (c : Char) : List Char :=
  if c = '"' then ['\\', '"']
  else if c = '\\' then ['\\', '\\']
  else if c.toNat = 8 then ['\\', 'b']
  else if c.toNat = 9 then ['\\', 't']
  else if c.toNat = 10 then ['\\', 'n']
  else if c.toNat = 12 then ['\\', 'f']
  else if c.toNat = 13 then ['\\', 'r']
  else if c.toNat < 32 then
    ['\\', 'u', '0', '0', hexDigit (c.toNat / 16), hexDigit (c.toNat % 16)]
  else [c]

/-- serde_json encoding of a string value, quotes included. -/
def jsonString (s : String) : String :=
  ⟨'"' :: (s.toList.map jsonEscapeChar).flatten ++ ['"']⟩

/-- serde_json encoding of one `AdditionalScheme` (field names in
camelCase per the serde rename attribute). -/
def AdditionalScheme.toJson (s : AdditionalScheme) : String :=
  "\x7b\"schemeUri\":" ++ jsonString s.scheme_uri ++ ",\"value\":" ++
    jsonString s.value ++ "\x7d"

/-- serde_json encoding of a list of additional schemes. -/
def schemesJson (xs : List AdditionalScheme) : String :=
  "[" ++ String.intercalate "," (xs.map AdditionalScheme.toJson) ++ "]"

/-- Non-strict lexicographic order on scheme URIs, the comparison underlying
the source's `sort_by(|a, b| a.scheme_uri.cmp(&b.scheme_uri))`. -/
def schemeLe (a b : AdditionalScheme) : Prop :=
  keyLt a.scheme_uri b.scheme_uri = true ∨ a.scheme_uri = b.scheme_uri

instance : DecidableRel schemeLe := fun a b =>
  inferInstanceAs (Decidable
    (keyLt a.scheme_uri b.scheme_uri = true ∨ a.scheme_uri = b.scheme_uri))

/-- Stable sort of the schemes by scheme URI, the model of the stable
`sort_by(|a, b| a.scheme_uri.cmp(&b.scheme_uri))` of the source
(insertion sort is stable, like Rust's `sort_by`). -/
def sortSchemes (xs : List AdditionalScheme) : List AdditionalScheme :=
  List.insertionSort schemeLe xs

/-- `EntityIdentifiers::canonical_fields`: the composite
`additionalSchemes` field (sorted and JSON-serialized) when the list is
present and non-empty, then the four optional identifier fields. -/
def EntityIdentifiers.canonical_fields (e : EntityIdentifiers) :
    List (String × String) :=
  let map : List (String × String) := []
  let map :=
    match e.additional_schemes with
    | some schemes =>
      if !schemes.isEmpty then
        mapInsert "additionalSchemes" (schemesJson (sortSchemes schemes)) map
      else map
    | none => map
  let map := insert_if_present map "canadianBn" e.canadian_bn
  let map := insert_if_present map "lei" e.lei
  let map := insert_if_present map "samUei" e.sam_uei
  let map := insert_if_present map "snfei" e.snfei
  map

/-! ## Helper lemmas -/

theorem countPipes_append (a b : String) : countPipes (a ++ b) = countPipes a + countPipes b := by
  simp [countPipes, String.toList, String.data_append, List.countP_append]

theorem lexLtChars_irrefl : ∀ as : List Char, lexLtChars as as = false
  | [] => rfl
  | a :: as => by simp [lexLtChars, lexLtChars_irrefl as]

theorem keyLt_irrefl (k : String) : keyLt k k = false :=
  lexLtChars_irrefl k.data

theorem mapLookup_mapInsert_self (k v : String) (m : List (String × String)) :
    mapLookup k (mapInsert k v m) = some v := by
  induction m with
  | nil => simp [mapInsert, mapLookup]
  | cons p rest ih =>
    obtain ⟨k0, v0⟩ := p
    by_cases h1 : keyLt k k0
    · simp [mapInsert, mapLookup, h1]
    · by_cases h2 : k = k0
      · subst h2
        simp [mapInsert, mapLookup, keyLt_irrefl]
      · simp [mapInsert, mapLookup, h1, h2, ih]

theorem mapLookup_mapInsert_ne (k k' v : String) (m : List (String × String))
    (h : k ≠ k') : mapLookup k (mapInsert k' v m) = mapLookup k m := by
  induction m with
  | nil => simp [mapInsert, mapLookup, h]
  | cons p rest ih =>
    obtain ⟨k0, v0⟩ := p
    by_cases h1 : keyLt k' k0
    · simp [mapInsert, mapLookup, h1, h]
    · by_cases h2 : k' = k0
      · subst h2
        simp [mapInsert, mapLookup, h1, h]
      · simp [mapInsert, mapLookup, h1, h2, ih]

theorem mapLookup_insert_if_present_ne (k k' : String) (v : Option String)
    (m : List (String × String)) (h : k ≠ k') :
    mapLookup k (insert_if_present m k' v) = mapLookup k m := by
  cases v with
  | none => rfl
  | some x => exact mapLookup_mapInsert_ne k k' x m h

theorem gswc_snfei_eq (legal_name country_code : String)
    (address registration_date lei sam_uei : Option String) :
    (generate_snfei_with_confidence legal_name country_code address
      registration_date lei sam_uei).snfei =
      compute_snfei (build_canonical_input legal_name country_code address
        registration_date) := by
  unfold generate_snfei_with_confidence
  by_cases h1 : optLenIs lei 20 <;> by_cases h2 : optLenIs sam_uei 12 <;>
    simp [h1, h2]

/-! ## Claim theorems -/

/-- C1 (counterexample): the pre-image hashed by the entity crate's
`Snfei::generate` does not contain exactly 3 pipe characters: at the
concrete input `("a", "b")` the pre-image is `"a|b"`, which contains exactly
1 pipe — so the claimed 4-segment shape fails for this SNFEI-producing
operation. -/
theorem snfei_generate_preimage_not_three_pipes :
    countPipes (Snfei.generate_preimage "a" "b") = 1 ∧
    ¬ countPipes (Snfei.generate_preimage "a" "b") = 3 := by
  constructor <;> decide

/-- C1 (amended): for `compute_snfei` over a `CanonicalInput` whose four
segments contain no pipe character, the SHA-256 pre-image
(`to_hash_string`) contains exactly 3 pipes (4 segments in the fixed
order); the entity crate's `Snfei::generate` instead hashes the 2-segment
pre-image `normalized_name|jurisdiction_iso`, which contains exactly 1 pipe
for pipe-free inputs. -/
theorem hash_input_shape (ci : CanonicalInput)
    (h1 : countPipes ci.legal_name_normalized = 0)
    (h2 : countPipes ci.address_normalized = 0)
    (h3 : countPipes ci.country_code = 0)
    (h4 : countPipes ci.registration_date = 0) :
    countPipes ci.to_hash_string = 3 ∧
    (∀ n j : String, countPipes n = 0 → countPipes j = 0 →
      countPipes (Snfei.generate_preimage n j) = 1) := by
  constructor
  · have hp : countPipes "|" = 1 := by decide
    simp only [CanonicalInput.to_hash_string, countPipes_append, h1, h2, h3,
      h4, hp]
  · intro n j hn hj
    have hp : countPipes "|" = 1 := by decide
    simp only [Snfei.generate_preimage, countPipes_append, hn, hj, hp]

/-- C1 (witness): the amended shape statement at the concrete canonical
input built from "Acme Corp", "US", an address and a date. -/
theorem hash_input_shape_witness :
    countPipes (build_canonical_input "Acme Corp" "US" (some "123 Main St")
      (some "2020-01-01")).to_hash_string = 3 :=
  (hash_input_shape
    (build_canonical_input "Acme Corp" "US" (some "123 Main St")
      (some "2020-01-01"))
    (by decide) (by decide) (by decide) (by decide)).1

/-- C2: tier precedence of `generate_snfei_with_confidence` — a present
20-byte LEI forces tier 1 with confidence 1.0 regardless of all other
arguments; otherwise a present 12-byte SAM UEI forces tier 2 with
confidence 0.95; otherwise the result is tier 3. -/
theorem tier_precedence (legal_name country_code : String)
    (address registration_date lei sam_uei : Option String) :
    (∀ l, lei = some l → utf8Len l.toList = 20 →
      (generate_snfei_with_confidence legal_name country_code address
        registration_date lei sam_uei).tier = 1 ∧
      (generate_snfei_with_confidence legal_name country_code address
        registration_date lei sam_uei).confidence_score = 1) ∧
    (optLenIs lei 20 = false → ∀ s, sam_uei = some s →
      utf8Len s.toList = 12 →
      (generate_snfei_with_confidence legal_name country_code address
        registration_date lei sam_uei).tier = 2 ∧
      (generate_snfei_with_confidence legal_name country_code address
        registration_date lei sam_uei).confidence_score = 19/20) ∧
    (optLenIs lei 20 = false → optLenIs sam_uei 12 = false →
      (generate_snfei_with_confidence legal_name country_code address
        registration_date lei sam_uei).tier = 3) := by
  refine ⟨?_, ?_, ?_⟩
  · intro l hl hlen
    subst hl
    have hlen' : utf8Len l.data = 20 := hlen
    constructor <;> simp [generate_snfei_with_confidence, optLenIs, hlen']
  · intro hlei s hs hlen
    subst hs
    have hlen' : utf8Len s.data = 12 := hlen
    simp only [optLenIs, String.toList] at hlei
    constructor <;>
      simp [generate_snfei_with_confidence, optLenIs, hlei, hlen']
  · intro hlei hsam
    simp only [optLenIs, String.toList] at hlei hsam
    simp [generate_snfei_with_confidence, optLenIs, hlei, hsam]

/-- C2 (witness): tier precedence evaluated on a concrete 20-character LEI
supplied together with a SAM UEI, an address and a date. -/
theorem tier_precedence_witness :
    (generate_snfei_with_confidence "Acme Corp" "US" (some "123 Main St")
      (some "2020-01-01") (some "12345678901234567890")
      (some "ABC123456789")).tier = 1 ∧
    (generate_snfei_with_confidence "Acme Corp" "US" (some "123 Main St")
      (some "2020-01-01") (some "12345678901234567890")
      (some "ABC123456789")).confidence_score = 1 :=
  (tier_precedence "Acme Corp" "US" (some "123 Main St") (some "2020-01-01")
    (some "12345678901234567890") (some "ABC123456789")).1
    "12345678901234567890" rfl (by decide)

/-- C3: for a Tier-3 result (no qualifying LEI or SAM UEI) the confidence
score equals `min(0.5 + 0.2·[address] + 0.2·[registration_date] +
0.1·[normalized name has > 3 words], 0.9)`; in particular with all three
bonuses present the score is exactly 0.9 and not 1.0.  Scores are embedded
as exact rationals. -/
theorem tier3_confidence (legal_name country_code : String)
    (address registration_date lei sam_uei : Option String)
    (hlei : optLenIs lei 20 = false) (hsam : optLenIs sam_uei 12 = false) :
    (generate_snfei_with_confidence legal_name country_code address
      registration_date lei sam_uei).confidence_score =
      min ((1:ℚ)/2 + (if address.isSome then (1:ℚ)/5 else 0) +
        (if registration_date.isSome then (1:ℚ)/5 else 0) +
        (if 3 < (splitWs (normalizeText legal_name).toList).length then
          (1:ℚ)/10 else 0)) ((9:ℚ)/10) ∧
    (address.isSome = true → registration_date.isSome = true →
      3 < (splitWs (normalizeText legal_name).toList).length →
      (generate_snfei_with_confidence legal_name country_code address
        registration_date lei sam_uei).confidence_score = 9/10 ∧
      (generate_snfei_with_confidence legal_name country_code address
        registration_date lei sam_uei).confidence_score ≠ 1) := by
  have key : (generate_snfei_with_confidence legal_name country_code address
      registration_date lei sam_uei).confidence_score =
      min ((1:ℚ)/2 + (if address.isSome then (1:ℚ)/5 else 0) +
        (if registration_date.isSome then (1:ℚ)/5 else 0) +
        (if 3 < (splitWs (normalizeText legal_name).toList).length then
          (1:ℚ)/10 else 0)) ((9:ℚ)/10) := by
    simp only [optLenIs, String.toList] at hlei hsam
    simp [generate_snfei_with_confidence, optLenIs, hlei, hsam,
      build_canonical_input, String.toList]
  refine ⟨key, fun hA hR hW => ⟨?_, ?_⟩⟩
  · rw [key, if_pos hW, hA, hR]
    norm_num [min_def]
  · rw [key, if_pos hW, hA, hR]
    norm_num [min_def]

/-- C3 (witness): the full-bonus concrete case reaches exactly 0.9 and the
base case (name and country only) yields exactly 0.5. -/
theorem tier3_confidence_witness :
    (generate_snfei_with_confidence "Springfield Regional Medical Center Inc"
      "US" (some "500 Hospital Dr") (some "1990-01-01") none
      none).confidence_score = 9/10 ∧
    (generate_snfei_with_confidence "Acme Corp" "US" none none none
      none).confidence_score = 1/2 := by
  constructor
  · exact ((tier3_confidence "Springfield Regional Medical Center Inc" "US"
      (some "500 Hospital Dr") (some "1990-01-01") none none rfl rfl).2
      rfl rfl (by decide)).1
  · have h := (tier3_confidence "Acme Corp" "US" none none none none
      rfl rfl).1
    have hwc : ¬ 3 < (splitWs (normalizeText "Acme Corp").toList).length := by
      decide
    rw [if_neg hwc] at h
    simp only [Option.isSome_none] at h
    rw [h]
    norm_num [min_def]

/-- C4: the `fields_used` list is exactly `["lei","legal_name",
"country_code"]` for Tier 1, `["sam_uei","legal_name","country_code"]` for
Tier 2, and for Tier 3 the base fields followed by `"address"` when the
address is present and then `"registration_date"` when the date is
present. -/
theorem fields_used_spec (legal_name country_code : String)
    (address registration_date lei sam_uei : Option String) :
    ((generate_snfei_with_confidence legal_name country_code address
        registration_date lei sam_uei).tier = 1 →
      (generate_snfei_with_confidence legal_name country_code address
        registration_date lei sam_uei).fields_used =
        ["lei", "legal_name", "country_code"]) ∧
    ((generate_snfei_with_confidence legal_name country_code address
        registration_date lei sam_uei).tier = 2 →
      (generate_snfei_with_confidence legal_name country_code address
        registration_date lei sam_uei).fields_used =
        ["sam_uei", "legal_name", "country_code"]) ∧
    ((generate_snfei_with_confidence legal_name country_code address
        registration_date lei sam_uei).tier = 3 →
      (generate_snfei_with_confidence legal_name country_code address
        registration_date lei sam_uei).fields_used =
        ["legal_name", "country_code"] ++
          (if address.isSome then ["address"] else []) ++
          (if registration_date.isSome then ["registration_date"] else [])) := by
  by_cases h1 : optLenIs lei 20 <;> by_cases h2 : optLenIs sam_uei 12 <;>
    constructor <;>
      simp [generate_snfei_with_confidence, h1, h2]

/-- C4 (witness): the Tier-3 field list with only an address supplied. -/
theorem fields_used_spec_witness :
    (generate_snfei_with_confidence "Acme Corp" "US" (some "123 Main St")
      none none none).fields_used =
      ["legal_name", "country_code", "address"] := by
  have h := (fields_used_spec "Acme Corp" "US" (some "123 Main St") none
    none none).2.2 rfl
  simpa using h

/-- C5: the `snfei` field of `generate_snfei_with_confidence` depends only
on the four canonical attributes: it equals the identifier returned by
`generate_snfei` on those attributes, for every choice of `lei` and
`sam_uei` (the whole computation is a pure function, so identical inputs
trivially yield identical results). -/
theorem snfei_depends_only_on_attributes (legal_name country_code : String)
    (address registration_date lei sam_uei lei2 sam_uei2 : Option String) :
    (generate_snfei_with_confidence legal_name country_code address
      registration_date lei sam_uei).snfei =
      (generate_snfei legal_name country_code address registration_date).1 ∧
    (generate_snfei_with_confidence legal_name country_code address
      registration_date lei sam_uei).snfei =
      (generate_snfei_with_confidence legal_name country_code address
        registration_date lei2 sam_uei2).snfei := by
  constructor
  · rw [gswc_snfei_eq]
    rfl
  · rw [gswc_snfei_eq, gswc_snfei_eq]

/-- C6: `Attestation::canonical_fields` emits exactly the fixed key set in
byte-lexicographic order: the six required keys, with `anchorUri` inserted
at the front of the sorted sequence exactly when the anchor URI is set; an
attestation built by `new` yields exactly the six required keys. -/
theorem attestation_canonical_key_order :
    (∀ a : Attestation, mapKeys a.canonical_fields =
      if a.anchor_uri.isSome then
        ["anchorUri", "attestationTimestamp", "attestorId", "proofPurpose",
         "proofType", "proofValue", "verificationMethodUri"]
      else
        ["attestationTimestamp", "attestorId", "proofPurpose", "proofType",
         "proofValue", "verificationMethodUri"]) ∧
    (∀ attestor_id ts proof_type proof_value vm_uri : String,
      mapKeys (Attestation.new attestor_id ts proof_type proof_value
        vm_uri).canonical_fields =
        ["attestationTimestamp", "attestorId", "proofPurpose", "proofType",
         "proofValue", "verificationMethodUri"]) := by
  constructor
  · intro a
    obtain ⟨aid, ts, pt, pv, vm, pp, anchor⟩ := a
    cases anchor <;> rfl
  · intro aid ts pt pv vm
    rfl

/-- C7: `primary_identifier` returns `cep-entity:<scheme>:<value>` chosen by
the fixed precedence LEI, SAM UEI, SNFEI, Canadian BN, and `none` when all
four typed slots are absent — even when `additional_schemes` is non-empty,
in which case `has_any` is still true. -/
theorem primary_identifier_precedence (e : EntityIdentifiers) :
    (∀ l, e.lei = some l →
      e.primary_identifier = some ("cep-entity:lei:" ++ l)) ∧
    (e.lei = none → ∀ u, e.sam_uei = some u →
      e.primary_identifier = some ("cep-entity:sam-uei:" ++ u)) ∧
    (e.lei = none → e.sam_uei = none → ∀ s, e.snfei = some s →
      e.primary_identifier = some ("cep-entity:snfei:" ++ s)) ∧
    (e.lei = none → e.sam_uei = none → e.snfei = none →
      ∀ b, e.canadian_bn = some b →
        e.primary_identifier = some ("cep-entity:canadian-bn:" ++ b)) ∧
    (e.lei = none → e.sam_uei = none → e.snfei = none →
      e.canadian_bn = none →
      e.primary_identifier = none ∧
      (∀ xs, e.additional_schemes = some xs → xs ≠ [] →
        e.has_any = true)) := by
  refine ⟨?_, ?_, ?_, ?_, ?_⟩
  · intro l hl
    simp [EntityIdentifiers.primary_identifier, hl]
  · intro h1 u hu
    simp [EntityIdentifiers.primary_identifier, h1, hu]
  · intro h1 h2 s hs
    simp [EntityIdentifiers.primary_identifier, h1, h2, hs]
  · intro h1 h2 h3 b hb
    simp [EntityIdentifiers.primary_identifier, h1, h2, h3, hb]
  · intro h1 h2 h3 h4
    constructor
    · simp [EntityIdentifiers.primary_identifier, h1, h2, h3, h4]
    · intro xs hxs hne
      simp [EntityIdentifiers.has_any, h1, h2, h3, h4, hxs, hne]

/-- C7 (witness): with only a non-empty `additional_schemes` list the
primary identifier is absent while `has_any` holds. -/
theorem primary_identifier_precedence_witness :
    EntityIdentifiers.primary_identifier
      ⟨none, none, none, none, some [⟨"urn:x", "1"⟩]⟩ = none ∧
    EntityIdentifiers.has_any
      ⟨none, none, none, none, some [⟨"urn:x", "1"⟩]⟩ = true := by
  have h := (primary_identifier_precedence
    ⟨none, none, none, none, some [⟨"urn:x", "1"⟩]⟩).2.2.2.2
    rfl rfl rfl rfl
  exact ⟨h.1, h.2 [⟨"urn:x", "1"⟩] rfl (by simp)⟩

/-- C8: `CanadianBn::new` is claimed never to panic, but it calls
`str::split_at(9)` guarded only by a byte-length check: on the 15-byte
input `"12345678é12345"` byte index 9 falls inside the two-byte character
`é`, so the Rust code panics (`byte index 9 is not a char boundary`)
instead of returning `None`. -/
theorem canadian_bn_new_panics :
    utf8Len "12345678é12345".toList = 15 ∧
    CanadianBn.new "12345678é12345" = Except.error () := by
  constructor <;> rfl

theorem lexLtChars_trans (as : List Char) : ∀ bs cs : List Char,
    lexLtChars as bs = true → lexLtChars bs cs = true →
    lexLtChars as cs = true := by
  induction as with
  | nil =>
    intro bs cs h1 h2
    cases bs with
    | nil => simp [lexLtChars] at h1
    | cons b bs =>
      cases cs with
      | nil => simp [lexLtChars] at h2
      | cons c cs => rfl
  | cons a as ih =>
    intro bs cs h1 h2
    cases bs with
    | nil => simp [lexLtChars] at h1
    | cons b bs =>
      cases cs with
      | nil => simp [lexLtChars] at h2
      | cons c cs =>
        simp only [lexLtChars] at h1 h2 ⊢
        by_cases hab : a.toNat < b.toNat
        · by_cases hbc : b.toNat < c.toNat
          · simp [Nat.lt_trans hab hbc]
          · by_cases hcb : c.toNat < b.toNat
            · simp [hbc, hcb] at h2
            · have hac : a.toNat < c.toNat := by omega
              simp [hac]
        · by_cases hba : b.toNat < a.toNat
          · simp [hab, hba] at h1
          · simp only [hab, hba, if_false] at h1
            by_cases hbc : b.toNat < c.toNat
            · have hac : a.toNat < c.toNat := by omega
              simp [hac]
            · by_cases hcb : c.toNat < b.toNat
              · simp [hbc, hcb] at h2
              · simp only [hbc, hcb, if_false] at h2
                have hac : ¬ a.toNat < c.toNat := by omega
                have hca : ¬ c.toNat < a.toNat := by omega
                simp [hac, hca, ih bs cs h1 h2]

theorem lexLtChars_total (as : List Char) : ∀ bs : List Char,
    lexLtChars as bs = true ∨ lexLtChars bs as = true ∨ as = bs := by
  induction as with
  | nil =>
    intro bs
    cases bs with
    | nil => right; right; rfl
    | cons b bs => left; rfl
  | cons a as ih =>
    intro bs
    cases bs with
    | nil => right; left; rfl
    | cons b bs =>
      by_cases hab : a.toNat < b.toNat
      · left
        simp [lexLtChars, hab]
      · by_cases hba : b.toNat < a.toNat
        · right; left
          simp [lexLtChars, hba]
        · have hv : a = b := Char.ext (UInt32.ext (by
            simp only [Char.toNat] at hab hba
            omega))
          subst hv
          rcases ih bs with h | h | h
          · left
            simp [lexLtChars, h]
          · right; left
            simp [lexLtChars, h]
          · right; right
            rw [h]

instance : IsTrans AdditionalScheme schemeLe where
  trans a b c hab hbc := by
    rcases hab with hab | hab <;> rcases hbc with hbc | hbc
    · exact Or.inl (lexLtChars_trans _ _ _ hab hbc)
    · exact Or.inl (hbc ▸ hab)
    · exact Or.inl (hab ▸ hbc)
    · exact Or.inr (hab.trans hbc)

instance : IsTotal AdditionalScheme schemeLe where
  total a b := by
    rcases lexLtChars_total a.scheme_uri.data b.scheme_uri.data with h | h | h
    · exact Or.inl (Or.inl h)
    · exact Or.inr (Or.inl h)
    · exact Or.inl (Or.inr (by
        cases hs : a.scheme_uri
        cases ht : b.scheme_uri
        simp_all))

/-- C9: `EntityIdentifiers::canonical_fields` exposes the additional-scheme
list as the single composite key `additionalSchemes`, whose value is the
deterministic JSON serialization of the list stably sorted by scheme URI in
lexicographic order; the key is absent when the list is absent or empty,
and the sorted list is a permutation of the stored one (which, the
computation being pure, is left unchanged). -/
theorem additional_schemes_canonical (e : EntityIdentifiers) :
    (mapLookup "additionalSchemes" e.canonical_fields =
      match e.additional_schemes with
      | some xs =>
        if xs.isEmpty then none else some (schemesJson (sortSchemes xs))
      | none => none) ∧
    (∀ xs : List AdditionalScheme,
      List.Sorted schemeLe (sortSchemes xs) ∧ (sortSchemes xs).Perm xs) := by
  constructor
  · simp only [EntityIdentifiers.canonical_fields]
    rw [mapLookup_insert_if_present_ne _ _ _ _ (by decide),
      mapLookup_insert_if_present_ne _ _ _ _ (by decide),
      mapLookup_insert_if_present_ne _ _ _ _ (by decide),
      mapLookup_insert_if_present_ne _ _ _ _ (by decide)]
    cases e.additional_schemes with
    | none => rfl
    | some xs =>
      by_cases hxs : xs.isEmpty
      · simp [hxs, mapLookup]
      · simp [hxs, mapLookup_mapInsert_self]
  · intro xs
    exact ⟨List.sorted_insertionSort schemeLe xs,
      List.perm_insertionSort schemeLe xs⟩

/-- C10: SNFEI generation is case-insensitive (and whitespace-run
insensitive) in the legal name: the three Springfield case variants yield
one SNFEI, any two legal names with the same character-wise ASCII case fold
yield equal results, and more generally so do any two names with equal
normalizations. -/
theorem snfei_case_insensitive (country_code : String)
    (address registration_date : Option String) :
    ((generate_snfei "Springfield USD" "US" none none).1 =
        (generate_snfei "SPRINGFIELD USD" "US" none none).1 ∧
      (generate_snfei "SPRINGFIELD USD" "US" none none).1 =
        (generate_snfei "springfield usd" "US" none none).1) ∧
    (∀ n1 n2 : String, normalizeText n1 = normalizeText n2 →
      generate_snfei n1 country_code address registration_date =
        generate_snfei n2 country_code address registration_date) ∧
    (∀ n1 n2 : String,
      n1.data.map asciiLowerChar = n2.data.map asciiLowerChar →
      generate_snfei n1 country_code address registration_date =
        generate_snfei n2 country_code address registration_date) := by
  have hgen : ∀ (n1 n2 cc : String) (a r : Option String),
      normalizeText n1 = normalizeText n2 →
      generate_snfei n1 cc a r = generate_snfei n2 cc a r := by
    intro n1 n2 cc a r h
    unfold generate_snfei build_canonical_input
    rw [h]
  refine ⟨⟨?_, ?_⟩, fun n1 n2 h => hgen n1 n2 _ _ _ h, fun n1 n2 h => ?_⟩
  · exact congrArg Prod.fst (hgen "Springfield USD" "SPRINGFIELD USD" "US"
      none none rfl)
  · exact congrArg Prod.fst (hgen "SPRINGFIELD USD" "springfield usd" "US"
      none none rfl)
  · exact hgen n1 n2 _ _ _
      (congrArg (fun l => (⟨joinSpace (splitWs l)⟩ : String)) h)

/-- C10 (witness): two concrete case variants produce identical results. -/
theorem snfei_case_insensitive_witness :
    generate_snfei "Acme CORP" "US" none none =
      generate_snfei "ACME corp" "US" none none :=
  ((snfei_case_insensitive "US" none none).2.1) "Acme CORP" "ACME corp" rfl
